import Mathlib

/-!
Verification of the Youmind question-asking engine
(`scripts/ask_question.py`): a shallow embedding of the text
normalizer, the question-similarity predicate, the conversation
correlator, the stability detector, the polling loop and the
board-URL context-id resolution, together with theorems about them.

Strings are modelled by Lean `String` (a list of unicode
code points, compared lexicographically by code point, exactly as
Python compares `str` values); time stamps are rationals (seconds).
-/

namespace Youmind

/-! ### Normalizer (`_normalize_text`) -/

/-- Python's `\s` character class restricted to the ASCII whitespace
characters (space, tab, newline, carriage return, vertical tab, form feed). -/
def isPySpace (c : Char) : Bool :=
  c = ' ' || c = '\t' || c = '\n' || c = '\r' || c = '\x0b' || c = '\x0c'

/-- `re.sub(r"\s+", " ", ·)` on a list of characters: every maximal run of
whitespace characters is replaced by a single space. -/
def collapse : List Char → List Char
  | [] => []
  | [c] => if isPySpace c then [' '] else [c]
  | c1 :: c2 :: rest =>
    if isPySpace c1 && isPySpace c2 then collapse (c2 :: rest)
    else (if isPySpace c1 then ' ' else c1) :: collapse (c2 :: rest)

/-- Python `str.lstrip()` on a list of characters. -/
def lstripChars (l : List Char) : List Char := l.dropWhile isPySpace

/-- Python `str.strip()` on a list of characters: drop whitespace at
both ends. -/
def stripChars (l : List Char) : List Char :=
  List.rdropWhile isPySpace (l.dropWhile isPySpace)

/-- `_normalize_text` on a list of characters. -/
def normList (l : List Char) : List Char := stripChars (collapse l)

/-- `_normalize_text(text)`: collapse every whitespace run to one space and
trim both ends. -/
def normalizeText (s : String) : String := ⟨normList s.data⟩

/-! ### Substring test (Python's `in` operator on strings) -/

/-- Python `sub in big` for strings, on the underlying character lists. -/
def containsSubL (sub big : List Char) : Bool :=
  big.tails.any (fun t => sub.isPrefixOf t)

/-- Python `str.lower()` (the texts this program lowers are ASCII/CJK, where
`Char.toLower` agrees with Python). -/
def lowerStr (s : String) : String := ⟨s.data.map Char.toLower⟩

/-! ### Question similarity (`_is_same_question`) -/

/-- A character matched by the regex class `[A-Za-z0-9_-]`. -/
def isTokenChar (c : Char) : Bool :=
  ('A' ≤ c && c ≤ 'Z') || ('a' ≤ c && c ≤ 'z') || ('0' ≤ c && c ≤ '9') ||
    c = '_' || c = '-'

/-- Accumulator pass splitting a character list into its maximal runs of
token characters (the matches of `re.findall(r"[A-Za-z0-9_-]+", ·)`). -/
def runsAcc : List Char → List Char → List (List Char)
  | [], acc => if acc.isEmpty then [] else [acc.reverse]
  | c :: rest, acc =>
    if isTokenChar c then runsAcc rest (c :: acc)
    else if acc.isEmpty then runsAcc rest []
    else acc.reverse :: runsAcc rest []

/-- The maximal runs of `[A-Za-z0-9_-]` characters of a list. -/
def tokenRuns (l : List Char) : List (List Char) := runsAcc l []

/-- A character kept by `re.sub(r"[^A-Za-z0-9一-鿿]+", "", ·)`:
ASCII alphanumeric or CJK unified ideograph. -/
def isCompactChar (c : Char) : Bool :=
  ('A' ≤ c && c ≤ 'Z') || ('a' ≤ c && c ≤ 'z') || ('0' ≤ c && c ≤ '9') ||
    (0x4e00 ≤ c.toNat && c.toNat ≤ 0x9fff)

/-- Strip every non-alphanumeric, non-CJK character and lower-case
the rest (the "compact" form used by the similarity fallback). -/
def compactOf (l : List Char) : List Char :=
  (l.filter isCompactChar).map Char.toLower

/-- `_is_same_question(user_text, question)`: normalized substring match,
else a long-token match, else compact-form containment (full or last
ten characters). Empty normalized strings never match. -/
def isSameQuestion (userText question : String) : Bool :=
  let userNorm := normList userText.data
  let questionNorm := normList question.data
  if userNorm.isEmpty || questionNorm.isEmpty then false
  else if containsSubL questionNorm userNorm then true
  else
    let strongTokens := (tokenRuns questionNorm).filter (fun tk => 5 ≤ tk.length)
    if strongTokens.any (fun tk => containsSubL tk userNorm) then true
    else
      let userCompact := compactOf userNorm
      let questionCompact := compactOf questionNorm
      if userCompact.isEmpty || questionCompact.isEmpty then false
      else if containsSubL questionCompact userCompact then true
      else if 10 ≤ questionCompact.length &&
          containsSubL (questionCompact.drop (questionCompact.length - 10)) userCompact then
        true
      else false

/-! ### Structured-metadata detection and JSON-request detection -/

/-- `_looks_like_metadata_json(text)`: the normalized, lower-cased text
contains the three quoted JSON keys `"name"`, `"description"`, `"topics"`. -/
def looksLikeMetadataJson (text : String) : Bool :=
  let compact := lowerStr (normalizeText text)
  containsSubL "\"name\"".data compact.data &&
    containsSubL "\"description\"".data compact.data &&
    containsSubL "\"topics\"".data compact.data

/-- `_question_requests_json(question)`. -/
def questionRequestsJson (question : String) : Bool :=
  let q := lowerStr (normalizeText question)
  containsSubL "json".data q.data || containsSubL "结构化".data q.data ||
    containsSubL "严格输出".data q.data

/-! ### Conversation data model -/

/-- The role of a rendered conversation node (the `"user"`/`"assistant"`
type tag assigned by `_collect_conversation_sequence`). -/
inductive Role where
  | user
  | assistant
deriving DecidableEq

/-- One rendered conversation node as collected by
`_collect_conversation_sequence`: a role, an id attribute and the
normalized text. -/
structure Msg where
  role : Role
  id : String
  text : String
deriving DecidableEq

/-- Python's `<` on strings, on the underlying character lists:
lexicographic by code point, a proper prefix is smaller. -/
def pyLtL : List Char → List Char → Bool
  | [], [] => false
  | [], _ :: _ => true
  | _ :: _, [] => false
  | a :: as, b :: bs => if a < b then true else if b < a then false else pyLtL as bs

/-- Python's `<` on strings. -/
def pyLt (a b : String) : Bool := pyLtL a.data b.data

/-- Python `max(list_of_strings)` (lexicographic by code point),
`none` on the empty list. -/
def pyMax : List String → Option String
  | [] => none
  | x :: xs => some (xs.foldl (fun cur y => if pyLt cur y then y else cur) x)

/-! ### The polling loop state of `ask_youmind` -/

/-- The per-round constants captured before submission: the snapshot
(`baseline_max_user_id`, `previous_assistant_text_set`), the normalized
question and the `expects_json` flag. -/
structure Params where
  normalizedQuestion : String
  expectsJson : Bool
  baselineMaxUserId : String
  previousAssistantTexts : List String

/-- The mutable loop variables of `ask_youmind`'s polling loop. -/
structure LoopState where
  stableCount : Nat
  lastCandidateId : Option String
  lastText : Option String
  targetUserId : Option String
  targetIsMatch : Bool
deriving DecidableEq

/-- The loop variables as initialized just before the loop starts. -/
def initState : LoopState :=
  { stableCount := 0, lastCandidateId := none, lastText := none,
    targetUserId := none, targetIsMatch := false }

/-- The ids of the user turns matching the submitted question
(the `matching_user_ids` list comprehension). -/
def matchingUserIds (P : Params) (users : List Msg) : List String :=
  (users.filter (fun m =>
    !P.normalizedQuestion.isEmpty && isSameQuestion m.text P.normalizedQuestion)).map (·.id)

/-- One run of the identity correlator's target update: the primary
text-match path followed by the positional fallback (grace period 20 s). -/
def updateTarget (P : Params) (users : List Msg) (target : Option String)
    (isMatch : Bool) (elapsed : ℚ) : Option String × Bool :=
  let step1 : Option String × Bool :=
    match pyMax (matchingUserIds P users) with
    | some newest =>
      if pyLt P.baselineMaxUserId newest then (some newest, true) else (target, isMatch)
    | none => (target, isMatch)
  let target2 : Option String :=
    if step1.1 = none ∧ 20 ≤ elapsed then
      match pyMax ((users.filter (fun m => pyLt P.baselineMaxUserId m.id)).map (·.id)) with
      | some m => some m
      | none => step1.1
    else step1.1
  (target2, step1.2)

/-- Insert a message into a list already sorted ascending by id, after
every element whose id is strictly smaller. -/
def insertById (m : Msg) : List Msg → List Msg
  | [] => [m]
  | x :: xs => if pyLt x.id m.id then x :: insertById m xs else m :: x :: xs

/-- Stable insertion sort of messages ascending by id — extensionally the
stable `sorted(..., key=lambda x: x["id"])`. -/
def sortById (l : List Msg) : List Msg :=
  l.foldr insertById []

/-- The candidate-selection `for` loop body over the already sorted
post-target assistant turns: skip empty texts, skip metadata-shaped
payloads unless JSON was requested, skip stale snapshot texts while the
fallback target is unconfirmed inside the grace period, else stop. -/
def candLoop (P : Params) (isMatch : Bool) (elapsed : ℚ) : List Msg → Option Msg
  | [] => none
  | m :: rest =>
    if m.text.isEmpty then candLoop P isMatch elapsed rest
    else if looksLikeMetadataJson m.text && !P.expectsJson then
      candLoop P isMatch elapsed rest
    else if !isMatch && P.previousAssistantTexts.contains m.text &&
        decide (elapsed < 20) then
      candLoop P isMatch elapsed rest
    else some m

/-- Candidate selection among assistant turns with id above the target,
sorted ascending by id. -/
def pickCandidate (P : Params) (isMatch : Bool) (elapsed : ℚ)
    (assistants : List Msg) (target : String) : Option Msg :=
  candLoop P isMatch elapsed (sortById (assistants.filter (fun m => pyLt target m.id)))

/-- The fixed reminder appended to every successful answer. -/
def FOLLOW_UP_REMINDER : String :=
  "\n\nEXTREMELY IMPORTANT: Is that ALL you need to know? " ++
  "Before replying to the user, compare this answer with the original request. " ++
  "If details are missing, ask another comprehensive follow-up question and include full context."

/-- The stability detector: bump `stable_count` on an identical
`(id, text)` read, reset it to 1 otherwise; return the answer once
`stable_count ≥ 2` and at least 3 s have elapsed. -/
def stabilityStep (st : LoopState) (cid : String) (ctext : String)
    (elapsed : ℚ) : LoopState × Option String :=
  if st.lastCandidateId = some cid ∧ st.lastText = some ctext then
    let sc := st.stableCount + 1
    if 2 ≤ sc ∧ 3 ≤ elapsed then
      ({ st with stableCount := sc }, some (ctext ++ FOLLOW_UP_REMINDER))
    else ({ st with stableCount := sc }, none)
  else
    ({ st with
        lastCandidateId := some cid,
        lastText := some ctext,
        stableCount := 1 }, none)

/-- One iteration of `ask_youmind`'s polling loop on a freshly collected
conversation: correlate the target, select a candidate, run the stability
detector. Returns the updated loop variables and the answer, if the
iteration `return`s one. -/
def pollStep (P : Params) (st : LoopState) (conversation : List Msg)
    (elapsed : ℚ) : LoopState × Option String :=
  if conversation.isEmpty then (st, none)
  else
    let users := conversation.filter (fun m => m.role = Role.user)
    let assistants := conversation.filter (fun m => m.role = Role.assistant)
    let tm := updateTarget P users st.targetUserId st.targetIsMatch elapsed
    let st1 := { st with targetUserId := tm.1, targetIsMatch := tm.2 }
    match tm.1 with
    | none => (st1, none)
    | some t =>
      match pickCandidate P tm.2 elapsed assistants t with
      | none => (st1, none)
      | some m => stabilityStep st1 m.id m.text elapsed

/-- The hard deadline: `submit_started_at + max(30, int(timeout_seconds))`. -/
def deadline (submitStartedAt : ℚ) (timeoutSeconds : ℤ) : ℚ :=
  submitStartedAt + ((max 30 timeoutSeconds : ℤ) : ℚ)

/-- The polling loop over a trace of reads, each an elapsed time (seconds
since submission) paired with the collected conversation: poll while the
elapsed time is below `max(30, timeout_seconds)`, return the first answer
the stability detector accepts, `none` on timeout. -/
def runLoop (P : Params) (timeoutSeconds : ℤ) :
    List (ℚ × List Msg) → LoopState → Option String
  | [], _ => none
  | (elapsed, conversation) :: rest, st =>
    if elapsed < ((max 30 timeoutSeconds : ℤ) : ℚ) then
      match pollStep P st conversation elapsed with
      | (_, some ans) => some ans
      | (st1, none) => runLoop P timeoutSeconds rest st1
    else none

/-! ### Board-URL context-id resolution -/

/-- A parsed board URL in the shape `urlparse` and `parse_qsl` produce:
the six URL components, with the query already split into key-value
pairs (blank values kept). -/
structure ParsedUrl where
  scheme : String
  netloc : String
  path : String
  params : String
  query : List (String × String)
  fragment : String
deriving DecidableEq

/-- The context-carrying query keys removed for board-level questions. -/
def contextIdKeys : List String := ["material-id", "craft-id"]

/-- The keywords whose presence in the question keeps the
material/craft context id (`_question_needs_context_id`). -/
def contextKeywords : List String :=
  ["当前文章", "当前素材", "这篇文章", "这条素材", "当前内容", "当前卡片",
   "material", "craft", "current article", "current material",
   "this article", "this material"]

/-- `_question_needs_context_id(question)`. -/
def questionNeedsContextId (question : String) : Bool :=
  let q := lowerStr (normalizeText question)
  contextKeywords.any (fun tk => containsSubL tk.data q.data)

/-- `_strip_context_ids`: drop the material-id/craft-id pairs
(case-insensitive on the key), keep every other pair, drop the fragment. -/
def stripContextIds (u : ParsedUrl) : ParsedUrl :=
  { u with
    query := u.query.filter (fun kv => !contextIdKeys.contains (lowerStr kv.1)),
    fragment := "" }

/-- Does the URL's query carry a material-id or craft-id key
(case-insensitive)? -/
def hasContextId (u : ParsedUrl) : Bool :=
  (u.query.map (fun kv => lowerStr kv.1)).any (fun k => contextIdKeys.contains k)

/-- `_resolve_effective_board_url(board_url, question)`. -/
def resolveEffectiveBoardUrl (u : ParsedUrl) (question : String) : ParsedUrl :=
  if !hasContextId u then u
  else if questionNeedsContextId question then u
  else stripContextIds u

/-- The spec's admissibility condition on a candidate assistant turn:
non-empty text, not metadata-shaped unless JSON was requested, and not a
stale snapshot text while an unconfirmed fallback target is inside the
grace period. -/
def admissibleB (P : Params) (isMatch : Bool) (elapsed : ℚ) (m : Msg) : Bool :=
  !m.text.isEmpty &&
    !(looksLikeMetadataJson m.text && !P.expectsJson) &&
    !(!isMatch && P.previousAssistantTexts.contains m.text && decide (elapsed < 20))

/-! ## Lemmas about the normalizer -/

/-- Every whitespace character in the output of `collapse` is the plain
space character. -/
theorem collapse_blank (l : List Char) :
    ∀ c ∈ collapse l, isPySpace c = true → c = ' ' := by
  induction l using collapse.induct with
  | case1 => simp [collapse]
  | case2 c h => simp [collapse, h]
  | case3 c h =>
    intro x hx hs
    simp [collapse, h] at hx
    subst hx
    exact absurd hs h
  | case4 c1 c2 rest h ih =>
    simpa [collapse, h] using ih
  | case5 c1 c2 rest h ih =>
    intro x hx hs
    simp only [collapse, if_neg h] at hx
    rcases List.mem_cons.mp hx with hx | hx
    · subst hx
      by_cases h1 : isPySpace c1 = true
      · simp [h1]
      · simp only [h1, if_false] at hs ⊢
        exact absurd hs h1
    · exact ih x hx hs

/-- `collapse` of a non-empty list starts with the first character, a
whitespace head replaced by a space. -/
theorem collapse_cons_head (rest : List Char) :
    ∀ c : Char, ∃ t, collapse (c :: rest) = (if isPySpace c then ' ' else c) :: t := by
  induction rest with
  | nil =>
    intro c
    by_cases h : isPySpace c <;> exact ⟨[], by simp [collapse, h]⟩
  | cons c2 rest ih =>
    intro c
    by_cases h1 : isPySpace c <;> by_cases h2 : isPySpace c2
    · obtain ⟨t, ht⟩ := ih c2
      exact ⟨t, by simp [collapse, h1, h2, ht]⟩
    · exact ⟨collapse (c2 :: rest), by simp [collapse, h1, h2]⟩
    · exact ⟨collapse (c2 :: rest), by simp [collapse, h1, h2]⟩
    · exact ⟨collapse (c2 :: rest), by simp [collapse, h1, h2]⟩

/-- Replacing a whitespace character by a space preserves whitespace-ness. -/
theorem isPySpace_if (c : Char) :
    isPySpace (if isPySpace c then ' ' else c) = isPySpace c := by
  by_cases h : isPySpace c = true
  · rw [if_pos h, h]
    decide
  · rw [if_neg h]

/-- The output of `collapse` has no two adjacent whitespace characters. -/
theorem collapse_chain (l : List Char) :
    List.Chain' (fun a b => (isPySpace a && isPySpace b) = false) (collapse l) := by
  induction l using collapse.induct with
  | case1 => simp [collapse]
  | case2 c h => simp [collapse, h]
  | case3 c h => simp [collapse, h]
  | case4 c1 c2 rest h ih => simpa [collapse, h] using ih
  | case5 c1 c2 rest h ih =>
    obtain ⟨t, ht⟩ := collapse_cons_head rest c2
    simp only [collapse, if_neg h, ht]
    rw [List.chain'_cons]
    refine ⟨?_, ht ▸ ih⟩
    rw [isPySpace_if, isPySpace_if]
    exact Bool.eq_false_iff.mpr h

/-- `collapse` fixes a list with no adjacent whitespace whose whitespace
characters are all plain spaces. -/
theorem collapse_eq_self (l : List Char)
    (hchain : List.Chain' (fun a b => (isPySpace a && isPySpace b) = false) l)
    (hblank : ∀ c ∈ l, isPySpace c = true → c = ' ') :
    collapse l = l := by
  induction l using collapse.induct with
  | case1 => simp [collapse]
  | case2 c h =>
    have := hblank c (by simp) h
    simp [collapse, h, this]
  | case3 c h => simp [collapse, h]
  | case4 c1 c2 rest h ih =>
    rw [List.chain'_cons] at hchain
    exact absurd h (by simp [hchain.1])
  | case5 c1 c2 rest h ih =>
    rw [List.chain'_cons] at hchain
    have htail := ih hchain.2 (fun c hc hs => hblank c (List.mem_cons_of_mem _ hc) hs)
    have hc1 : (if isPySpace c1 then ' ' else c1) = c1 := by
      by_cases h1 : isPySpace c1 = true
      · rw [if_pos h1, hblank c1 (by simp) h1]
      · rw [if_neg h1]
    simp only [collapse, if_neg h, htail, hc1]

/-- The first character surviving `dropWhile` fails the predicate. -/
theorem dropWhile_cons_head_false {p : Char → Bool} :
    ∀ {l a t}, List.dropWhile p l = a :: t → p a = false := by
  intro l
  induction l with
  | nil => intro a t h; simp at h
  | cons x xs ih =>
    intro a t h
    by_cases hx : p x = true
    · rw [List.dropWhile_cons_of_pos hx] at h
      exact ih h
    · rw [List.dropWhile_cons_of_neg hx] at h
      cases h
      exact Bool.eq_false_iff.mpr hx

/-- `normList` is idempotent. -/
theorem normList_idem (l : List Char) : normList (normList l) = normList l := by
  have hchain := collapse_chain l
  have hblank := collapse_blank l
  set m := collapse l with hm
  set u := m.dropWhile isPySpace with hu
  set s := List.rdropWhile isPySpace u with hs
  have husuf : u <:+ m := List.dropWhile_suffix isPySpace
  have hspre : s <+: u := List.rdropWhile_prefix isPySpace u
  have hchain_s : List.Chain' (fun a b => (isPySpace a && isPySpace b) = false) s :=
    List.Chain'.prefix (hchain.suffix husuf) hspre
  have hblank_s : ∀ c ∈ s, isPySpace c = true → c = ' ' := fun c hc hsp =>
    hblank c (husuf.subset (hspre.subset hc)) hsp
  have hdrop_s : s.dropWhile isPySpace = s := by
    cases hsnil : s with
    | nil => simp
    | cons a t =>
      obtain ⟨r, hr⟩ := hspre
      have hua : List.dropWhile isPySpace m = a :: (t ++ r) := by
        rw [← hu, ← hr, hsnil]
        simp
      have hhead : ¬ isPySpace a = true := by
        simp [dropWhile_cons_head_false hua]
      rw [List.dropWhile_cons_of_neg hhead]
  have hstrip_s : stripChars s = s := by
    rw [stripChars, hdrop_s, hs, List.rdropWhile_idempotent]
  have hcollapse_s : collapse s = s := collapse_eq_self s hchain_s hblank_s
  show stripChars (collapse (stripChars m)) = stripChars m
  have hsm : stripChars m = s := by rw [stripChars, ← hu, ← hs]
  rw [hsm, hcollapse_s, hstrip_s]

/-- C9: `_normalize_text` (collapse every whitespace run to a single
space, trim both ends) is idempotent: normalizing twice equals
normalizing once. -/
theorem normalizeText_idem (s : String) :
    normalizeText (normalizeText s) = normalizeText s :=
  congrArg String.mk (normList_idem s.data)

/-! ## Lemmas about the similarity predicate -/

/-- Every list is a substring of itself. -/
theorem containsSubL_self (l : List Char) : containsSubL l l = true := by
  cases l with
  | nil => simp [containsSubL]
  | cons a t =>
    unfold containsSubL
    rw [List.tails_cons, List.any_cons]
    have : (a :: t).isPrefixOf (a :: t) = true := by
      rw [ List.isPrefixOf_iff_prefix]
    rw [this]
    simp

/-- A string equals the empty string iff its character list is empty. -/
theorem string_eq_empty_iff (s : String) : s = "" ↔ s.data = [] :=
  String.ext_iff

/-- Counterexample to C7 as stated: the whitespace-only string `"  "` is
non-empty, yet `_is_same_question("  ", "  ")` is false, because its
normalized form is empty. -/
theorem isSameQuestion_not_refl_on_blank :
    ("  " : String) ≠ "" ∧ isSameQuestion "  " "  " = false :=
  ⟨by decide, rfl⟩

/-- C7 amended: `_is_same_question` is reflexive after normalization — any
string with a non-empty NORMALIZED form matches itself — and whenever
either argument normalizes to the empty string (including whitespace-only
non-empty strings) the predicate is false. -/
theorem isSameQuestion_refl_empty :
    (∀ x : String, normalizeText x ≠ "" → isSameQuestion x x = true) ∧
    (∀ u q : String, normalizeText u = "" ∨ normalizeText q = "" →
      isSameQuestion u q = false) := by
  constructor
  · intro x hx
    have hne : (normList x.data).isEmpty = false := by
      rw [List.isEmpty_eq_false]
      intro h0
      exact hx ((string_eq_empty_iff _).mpr h0)
    unfold isSameQuestion
    simp only [hne, Bool.or_self, Bool.false_eq_true, if_false, containsSubL_self, if_true]
  · intro u q h
    unfold isSameQuestion
    rcases h with h | h
    · have : (normList u.data).isEmpty = true := by
        rw [List.isEmpty_iff]
        exact (string_eq_empty_iff _).mp h
      simp only [this, Bool.true_or, if_true]
    · have : (normList q.data).isEmpty = true := by
        rw [List.isEmpty_iff]
        exact (string_eq_empty_iff _).mp h
      simp only [this, Bool.or_true, if_true]

/-- Witness for C7 at concrete inputs. -/
theorem isSameQuestion_refl_empty_witness :
    isSameQuestion "ab c" "ab c" = true ∧ isSameQuestion "hi" "  " = false :=
  ⟨isSameQuestion_refl_empty.1 "ab c" (by decide),
   isSameQuestion_refl_empty.2 "hi" "  " (Or.inr (by decide))⟩

/-! ## Lemmas about the string order and `pyMax` -/

/-- Unfolding of `pyLtL` on two non-empty lists. -/
theorem pyLtL_cons (x y : Char) (xs ys : List Char) :
    pyLtL (x :: xs) (y :: ys) = true ↔ x < y ∨ (x = y ∧ pyLtL xs ys = true) := by
  show (if x < y then true else if y < x then false else pyLtL xs ys) = true ↔ _
  rcases lt_trichotomy x y with h | h | h
  · rw [if_pos h]
    simp [h]
  · subst h
    rw [if_neg (lt_irrefl x), if_neg (lt_irrefl x)]
    simp
  · rw [if_neg (asymm h), if_pos h]
    simp [asymm h, ne_of_gt h]

/-- `pyLtL` is irreflexive. -/
theorem pyLtL_irrefl : ∀ l : List Char, pyLtL l l = false := by
  intro l
  induction l with
  | nil => rfl
  | cons x xs ih =>
    rw [Bool.eq_false_iff]
    intro h
    rcases (pyLtL_cons x x xs xs).mp h with h1 | ⟨_, h1⟩
    · exact lt_irrefl x h1
    · exact (Bool.eq_false_iff.mp ih) h1

/-- `pyLtL` is transitive. -/
theorem pyLtL_trans : ∀ a b c : List Char,
    pyLtL a b = true → pyLtL b c = true → pyLtL a c = true := by
  intro a
  induction a with
  | nil =>
    intro b c hab hbc
    cases b with
    | nil => simp [pyLtL] at hab
    | cons y ys =>
      cases c with
      | nil => simp [pyLtL] at hbc
      | cons z zs => simp [pyLtL]
  | cons x xs ih =>
    intro b c hab hbc
    cases b with
    | nil => simp [pyLtL] at hab
    | cons y ys =>
      cases c with
      | nil => simp [pyLtL] at hbc
      | cons z zs =>
        rw [pyLtL_cons] at hab hbc ⊢
        rcases hab with h1 | ⟨h1, h1t⟩
        · rcases hbc with h2 | ⟨h2, _⟩
          · exact Or.inl (lt_trans h1 h2)
          · exact Or.inl (h2 ▸ h1)
        · rcases hbc with h2 | ⟨h2, h2t⟩
          · exact Or.inl (h1 ▸ h2)
          · exact Or.inr ⟨h1.trans h2, ih ys zs h1t h2t⟩

/-- `pyLtL` is total: if `a` is not below `b` then either `b` is below `a`
or they are equal. -/
theorem pyLtL_total : ∀ a b : List Char,
    pyLtL a b = false → pyLtL b a = true ∨ a = b := by
  intro a
  induction a with
  | nil =>
    intro b h
    cases b with
    | nil => exact Or.inr rfl
    | cons y ys => simp [pyLtL] at h
  | cons x xs ih =>
    intro b h
    cases b with
    | nil => exact Or.inl (by simp [pyLtL])
    | cons y ys =>
      rcases lt_trichotomy x y with hxy | hxy | hxy
      · exact absurd ((pyLtL_cons x y xs ys).mpr (Or.inl hxy)) (Bool.eq_false_iff.mp h)
      · subst hxy
        have hrec : pyLtL xs ys = false := by
          rw [Bool.eq_false_iff]
          intro hr
          exact (Bool.eq_false_iff.mp h) ((pyLtL_cons x x xs ys).mpr (Or.inr ⟨rfl, hr⟩))
        rcases ih ys hrec with h2 | h2
        · exact Or.inl ((pyLtL_cons x x ys xs).mpr (Or.inr ⟨rfl, h2⟩))
        · exact Or.inr (by rw [h2])
      · exact Or.inl ((pyLtL_cons y x ys xs).mpr (Or.inl hxy))

/-- `pyLt` is irreflexive. -/
theorem pyLt_irrefl (a : String) : pyLt a a = false := pyLtL_irrefl a.data

/-- `pyLt` is transitive. -/
theorem pyLt_trans {a b c : String} (h1 : pyLt a b = true) (h2 : pyLt b c = true) :
    pyLt a c = true := pyLtL_trans a.data b.data c.data h1 h2

/-- `pyLt` is total. -/
theorem pyLt_total {a b : String} (h : pyLt a b = false) :
    pyLt b a = true ∨ a = b := by
  rcases pyLtL_total a.data b.data h with h2 | h2
  · exact Or.inl h2
  · exact Or.inr (String.ext h2)

/-- The fold inside `pyMax` returns an element of the accumulator-extended
list that no element strictly exceeds. -/
theorem foldMax_spec (xs : List String) : ∀ x : String,
    (xs.foldl (fun cur y => if pyLt cur y then y else cur) x) ∈ x :: xs ∧
    ∀ z ∈ x :: xs,
      pyLt (xs.foldl (fun cur y => if pyLt cur y then y else cur) x) z = false := by
  induction xs with
  | nil =>
    intro x
    simp only [List.foldl_nil]
    refine ⟨List.mem_cons_self _ _, ?_⟩
    intro z hz
    rw [List.mem_singleton] at hz
    rw [hz]
    exact pyLt_irrefl x
  | cons y ys ih =>
    intro x
    rw [List.foldl_cons]
    by_cases hxy : pyLt x y = true
    · rw [if_pos hxy]
      obtain ⟨hmem, hub⟩ := ih y
      refine ⟨List.mem_cons_of_mem _ hmem, ?_⟩
      intro z hz
      rcases List.mem_cons.mp hz with hzx | hz2
      · subst hzx
        rw [Bool.eq_false_iff]
        intro hrz
        exact (Bool.eq_false_iff.mp (hub y (List.mem_cons_self _ _)))
          (pyLt_trans hrz hxy)
      · exact hub z hz2
    · rw [if_neg hxy]
      rw [Bool.not_eq_true] at hxy
      obtain ⟨hmem, hub⟩ := ih x
      constructor
      · rcases List.mem_cons.mp hmem with h | h
        · rw [h]
          exact List.mem_cons_self _ _
        · exact List.mem_cons_of_mem _ (List.mem_cons_of_mem _ h)
      · intro z hz
        rcases List.mem_cons.mp hz with hzx | hz2
        · subst hzx
          exact hub z (List.mem_cons_self _ _)
        · rcases List.mem_cons.mp hz2 with hzy | hz3
          · subst hzy
            rw [Bool.eq_false_iff]
            intro hrz
            rcases pyLt_total hxy with h2 | h2
            · exact (Bool.eq_false_iff.mp (hub x (List.mem_cons_self _ _)))
                (pyLt_trans hrz h2)
            · rw [← h2] at hrz
              exact (Bool.eq_false_iff.mp (hub x (List.mem_cons_self _ _))) hrz
          · exact hub z (List.mem_cons_of_mem _ hz3)

/-- `pyMax` returns a member of the list that no member strictly exceeds —
the Python `max` of the list. -/
theorem pyMax_spec {l : List String} {n : String} (h : pyMax l = some n) :
    n ∈ l ∧ ∀ x ∈ l, pyLt n x = false := by
  cases l with
  | nil => simp [pyMax] at h
  | cons x xs =>
    have hn : n = xs.foldl (fun cur y => if pyLt cur y then y else cur) x := by
      have := h
      unfold pyMax at this
      injection this with h2
      exact h2.symm
    subst hn
    exact foldMax_spec xs x

/-! ## Lemmas about the correlator and the polling step -/

/-- The stability detector never touches the correlation fields. -/
theorem stabilityStep_target (st : LoopState) (cid ctext : String) (elapsed : ℚ) :
    (stabilityStep st cid ctext elapsed).1.targetUserId = st.targetUserId ∧
    (stabilityStep st cid ctext elapsed).1.targetIsMatch = st.targetIsMatch := by
  constructor <;>
    (simp only [stabilityStep]
     split
     · split <;> rfl
     · rfl)

/-- On a non-empty conversation, the poll step's correlation fields are
exactly the output of `updateTarget` on the user turns. -/
theorem pollStep_target (P : Params) (st : LoopState) (conv : List Msg) (elapsed : ℚ)
    (h : conv.isEmpty = false) :
    (pollStep P st conv elapsed).1.targetUserId =
      (updateTarget P (conv.filter (fun m => m.role = Role.user))
        st.targetUserId st.targetIsMatch elapsed).1 ∧
    (pollStep P st conv elapsed).1.targetIsMatch =
      (updateTarget P (conv.filter (fun m => m.role = Role.user))
        st.targetUserId st.targetIsMatch elapsed).2 := by
  unfold pollStep
  rw [h]
  simp only [Bool.false_eq_true, if_false]
  split
  · exact ⟨rfl, rfl⟩
  · split
    · exact ⟨rfl, rfl⟩
    · exact ⟨((stabilityStep_target _ _ _ _).1).trans rfl,
        ((stabilityStep_target _ _ _ _).2).trans rfl⟩

/-- If the maximum matching user id lies above the baseline, the primary
path fixes the target to it, confirmed. -/
theorem updateTarget_primary (P : Params) (users : List Msg) (target : Option String)
    (isMatch : Bool) (elapsed : ℚ) (n : String)
    (hmax : pyMax (matchingUserIds P users) = some n)
    (hgt : pyLt P.baselineMaxUserId n = true) :
    updateTarget P users target isMatch elapsed = (some n, true) := by
  unfold updateTarget
  rw [hmax]
  simp [hgt]

/-- If no user turn matches the question textually, the matching-id list
is empty. -/
theorem matchingUserIds_nil (P : Params) (users : List Msg)
    (h : ∀ m ∈ users, isSameQuestion m.text P.normalizedQuestion = false) :
    matchingUserIds P users = [] := by
  unfold matchingUserIds
  rw [List.filter_eq_nil_iff.mpr, List.map_nil]
  intro m hm
  simp [h m hm]

/-- With no primary match, an unset target and the grace period over, the
fallback fixes the target to the maximum post-baseline user id,
leaving the confirmation flag untouched. -/
theorem updateTarget_fallback (P : Params) (users : List Msg) (isMatch : Bool)
    (elapsed : ℚ) (n : String)
    (hmatch : matchingUserIds P users = [])
    (hel : 20 ≤ elapsed)
    (hmax : pyMax ((users.filter (fun m => pyLt P.baselineMaxUserId m.id)).map (·.id))
      = some n) :
    updateTarget P users none isMatch elapsed = (some n, isMatch) := by
  unfold updateTarget
  rw [hmatch, hmax]
  simp [hel, show pyMax [] = none from rfl]

/-- With no primary match and the grace period not yet over, an unset
target stays unset. -/
theorem updateTarget_idle (P : Params) (users : List Msg) (isMatch : Bool)
    (elapsed : ℚ)
    (hmatch : matchingUserIds P users = [])
    (hel : elapsed < 20) :
    updateTarget P users none isMatch elapsed = (none, isMatch) := by
  unfold updateTarget
  rw [hmatch]
  simp [not_le.mpr hel, show pyMax [] = none from rfl]

/-- C2: on any poll of a non-empty conversation whose user turns contain
text matches whose maximum id `n` exceeds the baseline, the correlator
sets `target_user_id = n` with a confirmed match; `n` is itself a
matching id above the baseline and no matching id exceeds it. Concretely,
with baseline "5", user ids "3","5","7" and matching text only on "7",
the poll selects "7", confirmed. -/
theorem primary_match_selects_max :
    (∀ (P : Params) (st : LoopState) (conv : List Msg) (elapsed : ℚ) (n : String),
      conv.isEmpty = false →
      pyMax (matchingUserIds P (conv.filter (fun m => m.role = Role.user))) = some n →
      pyLt P.baselineMaxUserId n = true →
      (pollStep P st conv elapsed).1.targetUserId = some n ∧
      (pollStep P st conv elapsed).1.targetIsMatch = true ∧
      n ∈ matchingUserIds P (conv.filter (fun m => m.role = Role.user)) ∧
      ∀ x ∈ matchingUserIds P (conv.filter (fun m => m.role = Role.user)),
        pyLt n x = false) ∧
    ((pollStep ⟨"hello", false, "5", []⟩ initState
        [⟨Role.user, "3", "xyz"⟩, ⟨Role.user, "5", "xyz"⟩, ⟨Role.user, "7", "hello"⟩]
        1).1.targetUserId = some "7" ∧
      (pollStep ⟨"hello", false, "5", []⟩ initState
        [⟨Role.user, "3", "xyz"⟩, ⟨Role.user, "5", "xyz"⟩, ⟨Role.user, "7", "hello"⟩]
        1).1.targetIsMatch = true) := by
  constructor
  · intro P st conv elapsed n hconv hmax hgt
    obtain ⟨h1, h2⟩ := pollStep_target P st conv elapsed hconv
    rw [updateTarget_primary P _ st.targetUserId st.targetIsMatch elapsed n hmax hgt]
      at h1 h2
    obtain ⟨hmem, hub⟩ := pyMax_spec hmax
    exact ⟨h1, h2, hmem, hub⟩
  · exact ⟨rfl, rfl⟩

/-- Witness for C2 at a concrete poll. -/
theorem primary_match_selects_max_witness :
    (pollStep ⟨"hey there", false, "2", ["old"]⟩ initState
      [⟨Role.user, "4", "hey there"⟩, ⟨Role.assistant, "5", "ok"⟩]
      2).1.targetUserId = some "4" :=
  (primary_match_selects_max.1 ⟨"hey there", false, "2", ["old"]⟩ initState
    [⟨Role.user, "4", "hey there"⟩, ⟨Role.assistant, "5", "ok"⟩] 2 "4"
    rfl rfl rfl).1

/-- C3: on any poll of a non-empty conversation where no user turn's text
matches the question, the target is still unset and at least 20 seconds
have elapsed, the fallback sets `target_user_id` to the maximum user id
strictly above the baseline with the match unconfirmed; and with less
than 20 seconds elapsed the fallback never fires. Concretely, with user
ids "5","6","9", baseline "5", no text match and 25 s elapsed, it
selects "9", unconfirmed. -/
theorem fallback_selects_max_after_grace :
    (∀ (P : Params) (st : LoopState) (conv : List Msg) (elapsed : ℚ) (n : String),
      conv.isEmpty = false →
      (∀ m ∈ conv.filter (fun m => m.role = Role.user),
        isSameQuestion m.text P.normalizedQuestion = false) →
      st.targetUserId = none →
      st.targetIsMatch = false →
      20 ≤ elapsed →
      pyMax (((conv.filter (fun m => m.role = Role.user)).filter
        (fun m => pyLt P.baselineMaxUserId m.id)).map (·.id)) = some n →
      (pollStep P st conv elapsed).1.targetUserId = some n ∧
      (pollStep P st conv elapsed).1.targetIsMatch = false ∧
      pyLt P.baselineMaxUserId n = true) ∧
    (∀ (P : Params) (st : LoopState) (conv : List Msg) (elapsed : ℚ),
      (∀ m ∈ conv.filter (fun m => m.role = Role.user),
        isSameQuestion m.text P.normalizedQuestion = false) →
      st.targetUserId = none →
      elapsed < 20 →
      (pollStep P st conv elapsed).1.targetUserId = none) ∧
    ((pollStep ⟨"hello", false, "5", []⟩ initState
        [⟨Role.user, "5", "xyz"⟩, ⟨Role.user, "6", "xyz"⟩, ⟨Role.user, "9", "xyz"⟩]
        25).1.targetUserId = some "9" ∧
      (pollStep ⟨"hello", false, "5", []⟩ initState
        [⟨Role.user, "5", "xyz"⟩, ⟨Role.user, "6", "xyz"⟩, ⟨Role.user, "9", "xyz"⟩]
        25).1.targetIsMatch = false) := by
  refine ⟨?_, ?_, rfl, rfl⟩
  · intro P st conv elapsed n hconv hnom htgt him hel hmax
    obtain ⟨h1, h2⟩ := pollStep_target P st conv elapsed hconv
    rw [htgt, him] at h1 h2
    rw [updateTarget_fallback P _ false elapsed n
      (matchingUserIds_nil P _ hnom) hel hmax] at h1 h2
    refine ⟨h1, h2, ?_⟩
    obtain ⟨hmem, _⟩ := pyMax_spec hmax
    rw [List.mem_map] at hmem
    obtain ⟨m, hm, hmn⟩ := hmem
    rw [List.mem_filter] at hm
    rw [← hmn]
    exact hm.2
  · intro P st conv elapsed hnom htgt hel
    by_cases hconv : conv.isEmpty = true
    · unfold pollStep
      rw [hconv]
      simpa using htgt
    · rw [Bool.not_eq_true] at hconv
      obtain ⟨h1, _⟩ := pollStep_target P st conv elapsed hconv
      rw [htgt] at h1
      rw [updateTarget_idle P _ st.targetIsMatch elapsed
        (matchingUserIds_nil P _ hnom) hel] at h1
      exact h1

/-- Witness for C3 at a concrete poll. -/
theorem fallback_selects_max_after_grace_witness :
    (pollStep ⟨"hello", false, "5", []⟩ initState
      [⟨Role.user, "6", "xyz"⟩] 30).1.targetUserId = some "6" ∧
    (pollStep ⟨"hello", false, "5", []⟩ initState
      [⟨Role.user, "6", "xyz"⟩] 3).1.targetUserId = none :=
  ⟨(fallback_selects_max_after_grace.1 ⟨"hello", false, "5", []⟩ initState
      [⟨Role.user, "6", "xyz"⟩] 30 "6" rfl (by decide) rfl rfl (by norm_num) rfl).1,
    fallback_selects_max_after_grace.2.1 ⟨"hello", false, "5", []⟩ initState
      [⟨Role.user, "6", "xyz"⟩] 3 (by decide) rfl (by norm_num)⟩

/-- Counterexample to C1 as stated: from the initial state, a first poll
at 25 s with a non-matching user turn "9" sets the target to "9" by the
fallback; a second poll whose conversation carries a matching user turn
"7" re-evaluates the target down to "7" — an earlier id. -/
theorem target_can_move_backward :
    (pollStep ⟨"q", false, "5", []⟩ initState
      [⟨Role.user, "9", "zzz"⟩] 25).1.targetUserId = some "9" ∧
    (pollStep ⟨"q", false, "5", []⟩
      (pollStep ⟨"q", false, "5", []⟩ initState [⟨Role.user, "9", "zzz"⟩] 25).1
      [⟨Role.user, "7", "q"⟩] 26).1.targetUserId = some "7" ∧
    pyLt "7" "9" = true :=
  ⟨rfl, rfl, rfl⟩

/-- C1 amended: once `target_user_id` is set it is never unset, and the
positional fallback never re-evaluates it; but the primary text-match
path re-runs on every poll and may re-evaluate it, to the maximum
currently-matching id strictly above the baseline — which can be an
earlier id than the one previously set. -/
theorem target_stays_set :
    ∀ (P : Params) (st : LoopState) (conv : List Msg) (elapsed : ℚ) (t : String),
      st.targetUserId = some t →
      ∃ u, (pollStep P st conv elapsed).1.targetUserId = some u ∧
        (u = t ∨ (pyLt P.baselineMaxUserId u = true ∧
          (pollStep P st conv elapsed).1.targetIsMatch = true)) := by
  intro P st conv elapsed t htgt
  by_cases hconv : conv.isEmpty = true
  · refine ⟨t, ?_, Or.inl rfl⟩
    unfold pollStep
    rw [hconv]
    simpa using htgt
  · rw [Bool.not_eq_true] at hconv
    obtain ⟨h1, h2⟩ := pollStep_target P st conv elapsed hconv
    rw [htgt] at h1
    unfold updateTarget at h1 h2
    rcases hm : pyMax (matchingUserIds P (conv.filter (fun m => m.role = Role.user)))
      with _ | newest
    · rw [hm] at h1
      refine ⟨t, ?_, Or.inl rfl⟩
      simpa using h1
    · rw [hm] at h1 h2
      by_cases hgt : pyLt P.baselineMaxUserId newest = true
      · refine ⟨newest, ?_, Or.inr ⟨hgt, ?_⟩⟩
        · rw [h1]
          simp [hgt]
        · rw [h2]
          simp [hgt]
      · rw [Bool.not_eq_true] at hgt
        refine ⟨t, ?_, Or.inl rfl⟩
        rw [h1]
        simp [hgt]

/-- Witness for the amended C1 at a concrete state. -/
theorem target_stays_set_witness :
    ∃ u, (pollStep ⟨"q", false, "5", []⟩
        { stableCount := 0, lastCandidateId := none, lastText := none,
          targetUserId := some "8", targetIsMatch := false }
        [⟨Role.user, "6", "zzz"⟩] 25).1.targetUserId = some u ∧
      (u = "8" ∨ (pyLt "5" u = true ∧
        (pollStep ⟨"q", false, "5", []⟩
          { stableCount := 0, lastCandidateId := none, lastText := none,
            targetUserId := some "8", targetIsMatch := false }
          [⟨Role.user, "6", "zzz"⟩] 25).1.targetIsMatch = true)) :=
  target_stays_set ⟨"q", false, "5", []⟩
    { stableCount := 0, lastCandidateId := none, lastText := none,
      targetUserId := some "8", targetIsMatch := false }
    [⟨Role.user, "6", "zzz"⟩] 25 "8" rfl

/-! ## Lemmas about the stability detector -/

/-- The stability detector returns an answer only from the
increment branch, only as the candidate text plus the reminder, and only
with a stable count of at least 2 after at least 3 s. -/
theorem stabilityStep_some {st : LoopState} {cid ctext : String} {elapsed : ℚ}
    {ans : String} (h : (stabilityStep st cid ctext elapsed).2 = some ans) :
    ans = ctext ++ FOLLOW_UP_REMINDER ∧
    2 ≤ (stabilityStep st cid ctext elapsed).1.stableCount ∧ 3 ≤ elapsed := by
  revert h
  simp only [stabilityStep]
  split
  · split
    · rename_i hcond
      intro h
      injection h with h
      exact ⟨h.symm, hcond.1, hcond.2⟩
    · intro h
      simp at h
  · intro h
    simp at h

/-- C5: the stability detector increments `stable_count` exactly when the
new candidate's `(id, text)` equals the last observed pair and resets it
to 1 (recording the new pair) otherwise; it returns an answer only when
the count reaches at least 2 with at least 3 s elapsed; on the
observation sequence ("id1","hello"), then ("id1","hello world") three
times, nothing is returned at the first two reads whatever the elapsed
times, and the third read returns exactly when at least 3 s have
elapsed. -/
theorem stability_detector_spec :
    (∀ (st : LoopState) (cid ctext : String) (elapsed : ℚ),
      (st.lastCandidateId = some cid ∧ st.lastText = some ctext →
        (stabilityStep st cid ctext elapsed).1.stableCount = st.stableCount + 1) ∧
      (¬(st.lastCandidateId = some cid ∧ st.lastText = some ctext) →
        (stabilityStep st cid ctext elapsed).1.stableCount = 1 ∧
        (stabilityStep st cid ctext elapsed).1.lastCandidateId = some cid ∧
        (stabilityStep st cid ctext elapsed).1.lastText = some ctext)) ∧
    (∀ (st : LoopState) (cid ctext : String) (elapsed : ℚ) (ans : String),
      (stabilityStep st cid ctext elapsed).2 = some ans →
      2 ≤ (stabilityStep st cid ctext elapsed).1.stableCount ∧ 3 ≤ elapsed) ∧
    (∀ e1 e2 e3 : ℚ,
      (stabilityStep initState "id1" "hello" e1).2 = none ∧
      (stabilityStep (stabilityStep initState "id1" "hello" e1).1
        "id1" "hello world" e2).2 = none ∧
      (e3 < 3 →
        (stabilityStep (stabilityStep (stabilityStep initState "id1" "hello" e1).1
          "id1" "hello world" e2).1 "id1" "hello world" e3).2 = none) ∧
      (3 ≤ e3 →
        (stabilityStep (stabilityStep (stabilityStep initState "id1" "hello" e1).1
          "id1" "hello world" e2).1 "id1" "hello world" e3).2 =
          some ("hello world" ++ FOLLOW_UP_REMINDER))) := by
  refine ⟨?_, ?_, ?_⟩
  · intro st cid ctext elapsed
    constructor
    · intro hcond
      simp only [stabilityStep]
      rw [if_pos hcond]
      split <;> rfl
    · intro hcond
      unfold stabilityStep
      rw [if_neg hcond]
      exact ⟨rfl, rfl, rfl⟩
  · intro st cid ctext elapsed ans h
    exact (stabilityStep_some h).2
  · intro e1 e2 e3
    have h1 : (stabilityStep initState "id1" "hello" e1) =
        ({ stableCount := 1, lastCandidateId := some "id1", lastText := some "hello",
           targetUserId := none, targetIsMatch := false }, none) := by
      unfold stabilityStep
      rw [if_neg (by simp [initState])]
      rfl
    have h2 : (stabilityStep (stabilityStep initState "id1" "hello" e1).1
        "id1" "hello world" e2) =
        ({ stableCount := 1, lastCandidateId := some "id1",
           lastText := some "hello world",
           targetUserId := none, targetIsMatch := false }, none) := by
      rw [h1]
      unfold stabilityStep
      rw [if_neg (by simp)]
    refine ⟨by rw [h1], by rw [h2], ?_, ?_⟩
    · intro he3
      rw [h2]
      unfold stabilityStep
      rw [if_pos (by simp)]
      simp [not_le.mpr he3]
    · intro he3
      rw [h2]
      unfold stabilityStep
      rw [if_pos (by simp)]
      simp [he3]

/-- Witness for C5 at concrete inputs. -/
theorem stability_detector_spec_witness :
    (stabilityStep ⟨1, some "a", some "b", none, false⟩ "a" "b" 5).1.stableCount
        = 1 + 1 ∧
    (2 ≤ (stabilityStep ⟨1, some "a", some "b", none, false⟩ "a" "b" 5).1.stableCount ∧
      (3 : ℚ) ≤ 5) ∧
    (stabilityStep (stabilityStep (stabilityStep initState "id1" "hello" 0).1
      "id1" "hello world" 1).1 "id1" "hello world" 2).2 = none :=
  ⟨(stability_detector_spec.1 ⟨1, some "a", some "b", none, false⟩ "a" "b" 5).1
      ⟨rfl, rfl⟩,
   stability_detector_spec.2.1 ⟨1, some "a", some "b", none, false⟩ "a" "b" 5
      ("b" ++ FOLLOW_UP_REMINDER) rfl,
   (stability_detector_spec.2.2 0 1 2).2.2.1 (by norm_num)⟩

/-! ## Lemmas about candidate selection -/

/-- `pyLt` is asymmetric. -/
theorem pyLt_asymm {a b : String} (h : pyLt a b = true) : pyLt b a = false := by
  rw [Bool.eq_false_iff]
  intro h2
  exact (Bool.eq_false_iff.mp (pyLt_irrefl a)) (pyLt_trans h h2)

/-- Inserting into a list permutes consing onto it. -/
theorem insertById_perm (m : Msg) : ∀ l : List Msg, List.Perm (insertById m l) (m :: l) := by
  intro l
  induction l with
  | nil => rfl
  | cons x xs ih =>
    unfold insertById
    split
    · exact (List.Perm.cons x ih).trans (List.Perm.swap m x xs)
    · rfl

/-- `sortById` permutes its input. -/
theorem sortById_perm : ∀ l : List Msg, List.Perm (sortById l) l := by
  intro l
  induction l with
  | nil => rfl
  | cons x xs ih =>
    unfold sortById at ih ⊢
    rw [List.foldr_cons]
    exact (insertById_perm x _).trans (List.Perm.cons x ih)

/-- Inserting preserves ascending-by-id pairwise order. -/
theorem insertById_pairwise (m : Msg) :
    ∀ l : List Msg, List.Pairwise (fun a b => pyLt b.id a.id = false) l →
      List.Pairwise (fun a b => pyLt b.id a.id = false) (insertById m l) := by
  intro l
  induction l with
  | nil =>
    intro _
    simp [insertById]
  | cons x xs ih =>
    intro h
    rw [List.pairwise_cons] at h
    obtain ⟨hx, hxs⟩ := h
    unfold insertById
    by_cases hcmp : pyLt x.id m.id = true
    · rw [if_pos hcmp, List.pairwise_cons]
      refine ⟨?_, ih hxs⟩
      intro z hz
      have hz2 : z ∈ m :: xs := (insertById_perm m xs).mem_iff.mp hz
      rcases List.mem_cons.mp hz2 with hzm | hzxs
      · rw [hzm]
        exact pyLt_asymm hcmp
      · exact hx z hzxs
    · rw [Bool.not_eq_true] at hcmp
      rw [if_neg (by simp [hcmp]), List.pairwise_cons]
      refine ⟨?_, List.pairwise_cons.mpr ⟨hx, hxs⟩⟩
      intro z hz
      rcases List.mem_cons.mp hz with hzx | hzxs
      · rw [hzx]
        exact hcmp
      · rw [Bool.eq_false_iff]
        intro hzm
        rcases pyLt_total hcmp with hmx | hmx
        · exact (Bool.eq_false_iff.mp (hx z hzxs)) (pyLt_trans hzm hmx)
        · rw [← hmx] at hzm
          exact (Bool.eq_false_iff.mp (hx z hzxs)) hzm

/-- `sortById` sorts ascending by id. -/
theorem sortById_pairwise : ∀ l : List Msg,
    List.Pairwise (fun a b => pyLt b.id a.id = false) (sortById l) := by
  intro l
  induction l with
  | nil => simp [sortById]
  | cons x xs ih =>
    unfold sortById at ih ⊢
    rw [List.foldr_cons]
    exact insertById_pairwise x _ ih

/-- The candidate `for` loop picks the first admissible element. -/
theorem candLoop_eq_find (P : Params) (isMatch : Bool) (elapsed : ℚ) :
    ∀ l : List Msg,
      candLoop P isMatch elapsed l = l.find? (admissibleB P isMatch elapsed) := by
  intro l
  induction l with
  | nil => rfl
  | cons m rest ih =>
    show (if m.text.isEmpty then candLoop P isMatch elapsed rest
      else if looksLikeMetadataJson m.text && !P.expectsJson then
        candLoop P isMatch elapsed rest
      else if !isMatch && P.previousAssistantTexts.contains m.text &&
          decide (elapsed < 20) then candLoop P isMatch elapsed rest
      else some m) = _
    by_cases h1 : m.text.isEmpty = true
    · rw [if_pos h1, ih, List.find?_cons_of_neg]
      simp [admissibleB, h1]
    · rw [if_neg h1]
      by_cases h2 : (looksLikeMetadataJson m.text && !P.expectsJson) = true
      · rw [if_pos h2, ih, List.find?_cons_of_neg]
        simp only [admissibleB, h2]
        simp
      · rw [if_neg h2]
        by_cases h3 : (!isMatch && P.previousAssistantTexts.contains m.text &&
            decide (elapsed < 20)) = true
        · rw [if_pos h3, ih, List.find?_cons_of_neg]
          simp only [admissibleB, h3]
          simp
        · rw [if_neg h3, List.find?_cons_of_pos]
          simp only [admissibleB, Bool.not_eq_true] at h1 h2 h3 ⊢
          rw [h1, h2, h3]
          rfl

/-- C4: candidate selection among the assistant turns with id above the
target works on the list sorted ascending by id (a permutation of the
post-target assistants) and picks the first admissible one: non-empty
text, not metadata-shaped unless JSON was requested, and not a stale
snapshot text while an unconfirmed fallback target is inside the grace
period. A metadata-shaped text is skipped when the question does not
request structured output and accepted when it does. -/
theorem candidate_selection_spec :
    (∀ (P : Params) (isMatch : Bool) (elapsed : ℚ) (assistants : List Msg)
        (target : String),
      pickCandidate P isMatch elapsed assistants target =
        (sortById (assistants.filter (fun m => pyLt target m.id))).find?
          (admissibleB P isMatch elapsed)) ∧
    (∀ l : List Msg, List.Perm (sortById l) l) ∧
    (∀ l : List Msg,
      List.Pairwise (fun a b => pyLt b.id a.id = false) (sortById l)) ∧
    (looksLikeMetadataJson
        "\"name\": \"n\", \"description\": \"d\", \"topics\": [\"t\"]" = true ∧
      questionRequestsJson "tell me about cats" = false ∧
      pickCandidate ⟨"tell me about cats", questionRequestsJson "tell me about cats",
          "", []⟩ true 5
        [⟨Role.assistant, "5",
          "\"name\": \"n\", \"description\": \"d\", \"topics\": [\"t\"]"⟩] "1" = none ∧
      questionRequestsJson "reply in json" = true ∧
      pickCandidate ⟨"reply in json", questionRequestsJson "reply in json", "", []⟩
          true 5
        [⟨Role.assistant, "5",
          "\"name\": \"n\", \"description\": \"d\", \"topics\": [\"t\"]"⟩] "1" =
        some ⟨Role.assistant, "5",
          "\"name\": \"n\", \"description\": \"d\", \"topics\": [\"t\"]"⟩) := by
  refine ⟨?_, sortById_perm, sortById_pairwise, rfl, rfl, rfl, rfl, rfl⟩
  intro P isMatch elapsed assistants target
  unfold pickCandidate
  exact candLoop_eq_find P isMatch elapsed _

/-! ## Lemmas about the polling loop -/

/-- A poll of an empty conversation changes nothing and returns nothing. -/
theorem pollStep_nil (P : Params) (st : LoopState) (elapsed : ℚ) :
    pollStep P st [] elapsed = (st, none) := rfl

/-- C6: the polling deadline is the submission time plus
`max(30, timeout_seconds)` — never less than 30 s after submission,
whatever the requested timeout; a poll read at or past the deadline
terminates the round with `none`; and a round in which no conversation
is ever read (no candidate can ever appear) ends with `none` — no
partial answer text. -/
theorem deadline_floor_and_timeout :
    (∀ (s : ℚ) (t : ℤ), deadline s t = s + ((max 30 t : ℤ) : ℚ) ∧
      s + (30 : ℚ) ≤ deadline s t) ∧
    (∀ (P : Params) (t : ℤ) (elapsed : ℚ) (conv : List Msg)
        (rest : List (ℚ × List Msg)) (st : LoopState),
      ((max 30 t : ℤ) : ℚ) ≤ elapsed →
      runLoop P t ((elapsed, conv) :: rest) st = none) ∧
    (∀ (P : Params) (t : ℤ) (trace : List (ℚ × List Msg)) (st : LoopState),
      (∀ p ∈ trace, p.2 = []) → runLoop P t trace st = none) := by
  refine ⟨?_, ?_, ?_⟩
  · intro s t
    refine ⟨rfl, ?_⟩
    unfold deadline
    have h30 : (30 : ℚ) ≤ ((max 30 t : ℤ) : ℚ) := by
      have := le_max_left (30 : ℤ) t
      exact_mod_cast this
    linarith
  · intro P t elapsed conv rest st h
    unfold runLoop
    rw [if_neg (not_lt.mpr h)]
  · intro P t trace st hempty
    induction trace generalizing st with
    | nil => rfl
    | cons p rest ih =>
      obtain ⟨elapsed, conv⟩ := p
      have hc : conv = [] := hempty (elapsed, conv) (List.mem_cons_self _ _)
      unfold runLoop
      rw [hc]
      split
      · rw [pollStep_nil]
        exact ih st (fun q hq => hempty q (List.mem_cons_of_mem _ hq))
      · rfl

/-- Witness for C6 at concrete inputs. -/
theorem deadline_floor_and_timeout_witness :
    runLoop ⟨"q", false, "", []⟩ 45 [(50, [⟨Role.user, "1", "q"⟩])] initState = none ∧
    runLoop ⟨"q", false, "", []⟩ 5 [(0, []), (10, []), (29, [])] initState = none :=
  ⟨deadline_floor_and_timeout.2.1 ⟨"q", false, "", []⟩ 45 50 [⟨Role.user, "1", "q"⟩]
      [] initState (by norm_num),
   deadline_floor_and_timeout.2.2 ⟨"q", false, "", []⟩ 5 [(0, []), (10, []), (29, [])]
      initState (by decide)⟩

/-- A poll step that returns an answer returns the text of an assistant
turn of the polled conversation, with the reminder appended. -/
theorem pollStep_some {P : Params} {st : LoopState} {conv : List Msg} {elapsed : ℚ}
    {ans : String} (h : (pollStep P st conv elapsed).2 = some ans) :
    ∃ m ∈ conv, m.role = Role.assistant ∧ ans = m.text ++ FOLLOW_UP_REMINDER := by
  revert h
  simp only [pollStep]
  split
  · intro h
    simp at h
  · split
    · intro h
      simp at h
    · split
      · intro h
        simp at h
      · rename_i hcand
        intro h
        unfold pickCandidate at hcand
        rw [candLoop_eq_find] at hcand
        have hmem := List.mem_of_find?_eq_some hcand
        have hmem2 := (sortById_perm _).mem_iff.mp hmem
        rw [List.mem_filter] at hmem2
        obtain ⟨hmem3, _⟩ := hmem2
        rw [List.mem_filter] at hmem3
        refine ⟨_, hmem3.1, by simpa using hmem3.2, ?_⟩
        exact ((stabilityStep_some h).1)

/-- C8: whenever the polling loop terminates successfully, its value is
exactly the text of an assistant turn read during some in-deadline poll
with the fixed `FOLLOW_UP_REMINDER` string appended — the engine invents
nothing else. -/
theorem engine_success_value :
    ∀ (P : Params) (t : ℤ) (trace : List (ℚ × List Msg)) (st : LoopState)
      (ans : String),
      runLoop P t trace st = some ans →
      ∃ elapsed conv, (elapsed, conv) ∈ trace ∧
        elapsed < ((max 30 t : ℤ) : ℚ) ∧
        ∃ m ∈ conv, m.role = Role.assistant ∧
          ans = m.text ++ FOLLOW_UP_REMINDER := by
  intro P t trace st ans h
  induction trace generalizing st with
  | nil => simp [runLoop] at h
  | cons p rest ih =>
    obtain ⟨elapsed, conv⟩ := p
    unfold runLoop at h
    by_cases hel : elapsed < ((max 30 t : ℤ) : ℚ)
    · rw [if_pos hel] at h
      revert h
      split
      · rename_i st1 a heq
        intro h
        injection h with h
        subst h
        exact ⟨elapsed, conv, List.mem_cons_self _ _, hel,
          pollStep_some (by rw [heq])⟩
      · rename_i st1 heq
        intro h
        obtain ⟨e2, c2, hmem, hlt, hm⟩ := ih st1 h
        exact ⟨e2, c2, List.mem_cons_of_mem _ hmem, hlt, hm⟩
    · rw [if_neg hel] at h
      simp at h

/-- Witness for C8: a concrete two-poll round that succeeds. -/
theorem engine_success_value_witness :
    ∃ elapsed conv,
      (elapsed, conv) ∈
        [((1 : ℚ), [Msg.mk Role.user "1" "hello", Msg.mk Role.assistant "2" "world"]),
         ((4 : ℚ), [Msg.mk Role.user "1" "hello", Msg.mk Role.assistant "2" "world"])] ∧
      elapsed < ((max 30 (30 : ℤ) : ℤ) : ℚ) ∧
      ∃ m ∈ conv, m.role = Role.assistant ∧
        ("world" ++ FOLLOW_UP_REMINDER : String) = m.text ++ FOLLOW_UP_REMINDER :=
  engine_success_value ⟨"hello", false, "", []⟩ 30
    [((1 : ℚ), [Msg.mk Role.user "1" "hello", Msg.mk Role.assistant "2" "world"]),
     ((4 : ℚ), [Msg.mk Role.user "1" "hello", Msg.mk Role.assistant "2" "world"])]
    initState ("world" ++ FOLLOW_UP_REMINDER) rfl

/-! ## The board-URL context-id resolution -/

/-- C10: when the board URL's query carries a material-id or craft-id key
(case-insensitive) and the normalized, lower-cased question contains none
of the fixed context keywords, the effective URL keeps the scheme,
netloc, path, params and every other query pair, removes exactly the
material-id/craft-id pairs and drops the fragment; when the URL carries
no context id, or the question contains a context keyword, the board URL
is used unchanged. -/
theorem board_url_context_resolution :
    (∀ (u : ParsedUrl) (q : String),
      hasContextId u = true →
      (∀ k ∈ contextKeywords,
        containsSubL k.data (lowerStr (normalizeText q)).data = false) →
      resolveEffectiveBoardUrl u q =
        { scheme := u.scheme, netloc := u.netloc, path := u.path,
          params := u.params,
          query := u.query.filter (fun kv =>
            !(lowerStr kv.1 = "material-id" || lowerStr kv.1 = "craft-id")),
          fragment := "" }) ∧
    (∀ (u : ParsedUrl) (q : String), hasContextId u = false →
      resolveEffectiveBoardUrl u q = u) ∧
    (∀ (u : ParsedUrl) (q : String), questionNeedsContextId q = true →
      resolveEffectiveBoardUrl u q = u) := by
  refine ⟨?_, ?_, ?_⟩
  · intro u q hhas hkw
    have hneeds : questionNeedsContextId q = false := by
      unfold questionNeedsContextId
      simp only [List.any_eq_false]
      intro k hk
      simp [hkw k hk]
    unfold resolveEffectiveBoardUrl
    rw [hhas, hneeds]
    simp only [Bool.not_true, Bool.false_eq_true, if_false]
    unfold stripContextIds
    congr 1
    apply List.filter_congr
    intro kv _
    simp [contextIdKeys, beq_iff_eq]
  · intro u q hhas
    unfold resolveEffectiveBoardUrl
    rw [hhas]
    rfl
  · intro u q hneeds
    unfold resolveEffectiveBoardUrl
    rw [hneeds]
    split <;> rfl

/-- Witness for C10 at concrete inputs. -/
theorem board_url_context_resolution_witness :
    resolveEffectiveBoardUrl
      ⟨"https", "youmind.com", "/board/b1", "",
        [("material-id", "m1"), ("x", "1"), ("CRAFT-ID", "c2")], "frag"⟩
      "hello" =
      ⟨"https", "youmind.com", "/board/b1", "", [("x", "1")], ""⟩ ∧
    resolveEffectiveBoardUrl ⟨"https", "h", "/p", "", [("a", "b")], "f"⟩ "hello" =
      ⟨"https", "h", "/p", "", [("a", "b")], "f"⟩ ∧
    resolveEffectiveBoardUrl
      ⟨"https", "h", "/p", "", [("material-id", "m")], "f"⟩
      "what is this material about" =
      ⟨"https", "h", "/p", "", [("material-id", "m")], "f"⟩ :=
  ⟨board_url_context_resolution.1
      ⟨"https", "youmind.com", "/board/b1", "",
        [("material-id", "m1"), ("x", "1"), ("CRAFT-ID", "c2")], "frag"⟩
      "hello" rfl (by decide),
   board_url_context_resolution.2.1 ⟨"https", "h", "/p", "", [("a", "b")], "f"⟩
      "hello" rfl,
   board_url_context_resolution.2.2 ⟨"https", "h", "/p", "", [("material-id", "m")], "f"⟩
      "what is this material about" rfl⟩

end Youmind
